import Mathlib

/-!
Shallow embedding of the strava-checker repository (strava-checker.py and
authorize.py) and proofs about its specification claims.

The embedding models:
  * JSON values and JSON objects for the activity records persisted in
    `activities.json` (python dicts become ordered association lists);
  * the normalization `activity_to_dict`, including its per-field defaulting
    and its degraded minimal-record path taken when a required-core
    conversion raises;
  * the merge pipeline of `main` (load, existing-id set, id filter,
    concatenate, sort, save) with the full-refresh and incremental modes;
  * `load_existing_activities` with its missing-file and corrupt-file cases;
  * `update_env_file` (defined identically in both source files) over the
    `.env` credentials file, lines modelled as `List Char` exactly as
    `readlines` yields them;
  * the control flow of `authorize.py`'s `main` with its try/finally server
    shutdown, the 60-second wait for the callback code, and the token
    exchange.

External effects (the Strava network API, the wall clock, sockets) are
modelled as explicit outcome parameters; everything the repository itself
computes is translated from the source.
-/

namespace StravaChecker

/-- JSON value as stored in `activities.json`.  Floats are carried as exact
integer-coded values (`jfloat n` stands for the float with value `n`); the
program never does float arithmetic, it only stores, compares and sorts, so
this coding is faithful for every claim considered here. -/
inductive JVal where
  | jnull
  | jbool (b : Bool)
  | jint (n : Int)
  | jfloat (n : Int)
  | jstr (s : String)
deriving DecidableEq

/-- Python `==` on the modelled JSON values: `None == None`, numeric types
compare by value across `bool`/`int`/`float` (`True == 1`, `5 == 5.0`),
strings compare as strings, and values of unrelated types are unequal. -/
def pyEq : JVal → JVal → Bool
  | .jnull, .jnull => true
  | .jbool a, .jbool b => a == b
  | .jbool a, .jint n => (if a then (1 : Int) else 0) == n
  | .jbool a, .jfloat n => (if a then (1 : Int) else 0) == n
  | .jint m, .jbool b => m == (if b then (1 : Int) else 0)
  | .jint m, .jint n => m == n
  | .jint m, .jfloat n => m == n
  | .jfloat m, .jbool b => m == (if b then (1 : Int) else 0)
  | .jfloat m, .jint n => m == n
  | .jfloat m, .jfloat n => m == n
  | .jstr s, .jstr t => s == t
  | _, _ => false

/-- A python dict as persisted in JSON: an insertion-ordered association
list.  Stored records loaded from the activities file may have arbitrary
key sets (claim C10 is about records missing keys). -/
abbrev JObj := List (String × JVal)

/-- Python `d.get(k)` / `k in d`: first binding of the key, if any. -/
def JObj.get? (o : JObj) (k : String) : Option JVal :=
  match o with
  | [] => none
  | (k', v) :: rest => if k' = k then some v else JObj.get? rest k

/-- Python `v in s` membership test, using python `==` on elements.  The
source keeps `existing_ids` as a `set`; only membership is ever used, so the
set is modelled as the list of its elements with `pyEq`-membership. -/
def pyMem (v : JVal) (s : List JVal) : Bool :=
  s.any (fun w => pyEq v w)

/-- Outcome of probing one attribute of an external (stravalib) activity
object, as observed by `activity_to_dict`:
  * `absent`: `hasattr(activity, attr)` is false;
  * `anull`: the attribute is present and its value is `None`;
  * `aval v`: the attribute is present and converts to `v`;
  * `abad`: the attribute is present, non-`None` and truthy, but the
    `float`/`int`/`str`/`bool` conversion raises. -/
inductive Attr (α : Type) where
  | absent
  | anull
  | aval (v : α)
  | abad
deriving DecidableEq

/-- External activity object handed back by `client.get_activities`.  The
required core attributes (`id`, `name`, `start_date_local`, `type`) are
modelled as already-typed values; the remaining attributes go through the
probing of `activity_to_dict` and are modelled as `Attr` outcomes.  The
python attribute `type` is spelled `type'` and `private` is spelled `priv`
because both words are reserved in Lean. -/
structure ExtActivity where
  id : Int
  name : String
  start_date_local : String
  type' : String
  distance : Attr Int
  moving_time : Attr Int
  elapsed_time : Attr Int
  total_elevation_gain : Attr Int
  average_speed : Attr Int
  max_speed : Attr Int
  average_heartrate : Attr Int
  max_heartrate : Attr Int
  average_cadence : Attr Int
  average_watts : Attr Int
  calories : Attr Int
  kudos_count : Attr Int
  achievement_count : Attr Int
  athlete_count : Attr Int
  gear_id : Attr String
  device_name : Attr String
  priv : Attr Bool
  commute : Attr Bool

/-- Required-core numeric conversion, e.g.
`float(activity.distance) if hasattr(activity, 'distance') and activity.distance else 0.0`.
`none` means the conversion raised, which aborts the big `try` of
`activity_to_dict` and degrades the record to the minimal dict.  A present
zero value is falsy in Python, but the `else` branch then yields `0.0`,
the same value, so `aval v` uniformly yields `v`. -/
def reqNum : Attr Int → Option Int
  | .absent => some 0
  | .anull => some 0
  | .aval v => some v
  | .abad => none

/-- Optional float property: `float(value) if value is not None else None`,
with absence and conversion failure both yielding `None` (the per-field
`try`/`except` assigns `None`). -/
def floatProp : Attr Int → JVal
  | .absent => .jnull
  | .anull => .jnull
  | .aval v => .jfloat v
  | .abad => .jnull

/-- Optional integer property: `int(value) if value is not None else 0`,
with absence and conversion failure both yielding `0`. -/
def intProp : Attr Int → JVal
  | .absent => .jint 0
  | .anull => .jint 0
  | .aval n => .jint n
  | .abad => .jint 0

/-- Optional string property: `str(value) if value is not None else None`,
with absence and conversion failure both yielding `None`. -/
def strProp : Attr String → JVal
  | .absent => .jnull
  | .anull => .jnull
  | .aval s => .jstr s
  | .abad => .jnull

/-- Optional boolean property: `bool(value) if value is not None else False`,
with absence and conversion failure both yielding `False`. -/
def boolProp : Attr Bool → JVal
  | .absent => .jbool false
  | .anull => .jbool false
  | .aval b => .jbool b
  | .abad => .jbool false

/-- The minimal dict built by the `except` branch of `activity_to_dict`. -/
def minimal_record (a : ExtActivity) : JObj :=
  [("id", .jint a.id), ("name", .jstr a.name),
   ("start_date_local", .jstr a.start_date_local), ("type", .jstr a.type'),
   ("distance", .jfloat 0), ("moving_time", .jint 0), ("elapsed_time", .jint 0)]

/-- Embedding of `activity_to_dict`: the full record when the required-core
conversions succeed, the minimal record when one of them raises (the
`except Exception` branch of the source). -/
def activity_to_dict (a : ExtActivity) : JObj :=
  match reqNum a.distance, reqNum a.moving_time, reqNum a.elapsed_time with
  | some d, some mt, some et =>
    [("id", .jint a.id), ("name", .jstr a.name),
     ("start_date_local", .jstr a.start_date_local), ("type", .jstr a.type'),
     ("distance", .jfloat d), ("moving_time", .jint mt), ("elapsed_time", .jint et),
     ("total_elevation_gain", floatProp a.total_elevation_gain),
     ("average_speed", floatProp a.average_speed),
     ("max_speed", floatProp a.max_speed),
     ("average_heartrate", floatProp a.average_heartrate),
     ("max_heartrate", floatProp a.max_heartrate),
     ("average_cadence", floatProp a.average_cadence),
     ("average_watts", floatProp a.average_watts),
     ("calories", floatProp a.calories),
     ("kudos_count", intProp a.kudos_count),
     ("achievement_count", intProp a.achievement_count),
     ("athlete_count", intProp a.athlete_count),
     ("gear_id", strProp a.gear_id),
     ("device_name", strProp a.device_name),
     ("private", boolProp a.priv),
     ("commute", boolProp a.commute)]
  | _, _, _ => minimal_record a

/-- State of the `activities.json` file as seen by `load_existing_activities`:
absent, present but not valid JSON, or a parsed JSON array of records. -/
inductive StoreFile where
  | missing
  | corrupt
  | ok (acts : List JObj)
deriving DecidableEq

/-- Embedding of `load_existing_activities`: empty list when the file does
not exist or `json.load` raises `JSONDecodeError`, otherwise the parsed
list. -/
def load_existing_activities : StoreFile → List JObj
  | .missing => []
  | .corrupt => []
  | .ok acts => acts

/-- The set comprehension
`{activity.get('id') for activity in existing_activities if 'id' in activity}`.
Records lacking the `'id'` key contribute nothing. -/
def existing_ids_of (acts : List JObj) : List JVal :=
  acts.filterMap (fun a => a.get? "id")

/-- Sort key `lambda x: x.get('start_date_local', '')`, as a character list.
A present non-string value would make Python's `sort` raise `TypeError`
(aborting the run before any write); it is collapsed to the empty key here,
which can only enlarge the set of modelled writes. -/
def startKey (o : JObj) : List Char :=
  match o.get? "start_date_local" with
  | some (.jstr s) => s.toList
  | _ => []

/-- Lexicographic less-or-equal on character lists: Python's `<=` on
strings (code-point lexicographic comparison). -/
def lexLe : List Char → List Char → Bool
  | [], _ => true
  | _ :: _, [] => false
  | a :: as, b :: bs => if a < b then true else if b < a then false else lexLe as bs

/-- Order used by `updated_activities.sort(key=...)`. -/
def actLe (x y : JObj) : Prop := lexLe (startKey x) (startKey y) = true

instance : DecidableRel actLe := fun _ _ => inferInstanceAs (Decidable (_ = true))

/-- Embedding of `updated_activities.sort(key=lambda x: x.get('start_date_local', ''))`.
Python's `list.sort` is a stable sort by key; a stable sort with respect to a
total preorder is unique, and `List.insertionSort` computes exactly that
stable result. -/
def sortActs (l : List JObj) : List JObj :=
  l.insertionSort actLe

/-- The per-activity loop of `main`: convert, then keep the record when
`activity_dict['id'] not in existing_ids`.  A record without an `'id'` key
would raise `KeyError`, which the loop's `except Exception` catches and
skips — hence the `none` branch drops the record.  (`activity_to_dict`
always emits an `'id'` key, so that branch is never taken.) -/
def new_activities_of (exIds : List JVal) (fetched : List ExtActivity) : List JObj :=
  (fetched.map activity_to_dict).filter (fun d =>
    match d.get? "id" with
    | some v => !pyMem v exIds
    | none => false)

/-- The merge-and-save tail of `main`, after a successful fetch:
load (skipped on full refresh), compute the existing-id set, filter the
normalized fetched records, and either write the sorted result
(`some written`) or skip the write (`none`, logged
"No new activities found."). -/
def computeUpdate (full_refresh : Bool) (store : StoreFile)
    (fetched : List ExtActivity) : Option (List JObj) :=
  let existing_activities := if full_refresh then [] else load_existing_activities store
  let exIds := existing_ids_of existing_activities
  let new_activities := new_activities_of exIds fetched
  if new_activities ≠ [] ∨ full_refresh = true then
    some (sortActs (if full_refresh then new_activities else existing_activities ++ new_activities))
  else
    none

/-- One sync run's effect on the activities file, given the fetched set:
a write replaces the file content, a skipped write leaves it as it was. -/
def run_sync (full_refresh : Bool) (store : StoreFile)
    (fetched : List ExtActivity) : StoreFile :=
  match computeUpdate full_refresh store fetched with
  | some written => .ok written
  | none => store

/-- One line of the `.env` file exactly as `readlines` yields it: a
character sequence, normally terminated by a newline character. -/
abbrev Line := List Char

/-- The replacement line `f"ACCESS_TOKEN={token_response['access_token']}\n"`. -/
def accessLine (tok : Line) : Line :=
  "ACCESS_TOKEN=".toList ++ tok ++ ['\n']

/-- The replacement line `f"REFRESH_TOKEN={token_response['refresh_token']}\n"`. -/
def refreshLine (tok : Line) : Line :=
  "REFRESH_TOKEN=".toList ++ tok ++ ['\n']

/-- Body of the rewrite loop of `update_env_file`: a line starting with
`ACCESS_TOKEN=` or `REFRESH_TOKEN=` is replaced by the corresponding fresh
token line, every other line passes through unchanged.  (The two startswith
tests are mutually exclusive, so the loop is a per-line map; the
`tokens_updated` flags are recovered below by `List.any`.) -/
def replaceTokenLine (ats rts : Line) (line : Line) : Line :=
  if "ACCESS_TOKEN=".toList.isPrefixOf line then accessLine ats
  else if "REFRESH_TOKEN=".toList.isPrefixOf line then refreshLine rts
  else line

/-- Embedding of `update_env_file` (defined identically in
strava-checker.py and authorize.py): rewrite each line, then append a
fresh `ACCESS_TOKEN` line and then a fresh `REFRESH_TOKEN` line for
whichever of the two keys matched no existing line. -/
def update_env_file (env_lines : List Line) (ats rts : Line) : List Line :=
  let new_lines := env_lines.map (replaceTokenLine ats rts)
  let new_lines :=
    if env_lines.any (fun l => "ACCESS_TOKEN=".toList.isPrefixOf l) then new_lines
    else new_lines ++ [accessLine ats]
  if env_lines.any (fun l => "REFRESH_TOKEN=".toList.isPrefixOf l) then new_lines
  else new_lines ++ [refreshLine rts]

/-- Strip the terminating newline of a `readlines` line, when present. -/
def chompLine (l : Line) : Line :=
  if l.getLast? = some '\n' then l.dropLast else l

/-- Key of a `KEY=VALUE` line: the characters before the first `=`. -/
def lineKey (l : Line) : Line :=
  (chompLine l).takeWhile (fun c => c != '=')

/-- Value of a `KEY=VALUE` line: the characters after the first `=`. -/
def lineValue (l : Line) : Line :=
  ((chompLine l).dropWhile (fun c => c != '=')).drop 1

/-- Modelled from the spec: reading a key back from the credentials file
(`load_dotenv`/`os.getenv` is an external library).  Per the spec the file
is "parseable as key=value pairs"; dotenv lets the last occurrence of a key
win, so the reader returns the value of the last line with that key. -/
def readEnvKey (env_lines : List Line) (k : Line) : Option Line :=
  ((env_lines.filter (fun l => lineKey l = k)).getLast?).map lineValue

/-- Well-formed credentials-file line: newline-terminated, single-line,
parseable as `KEY=VALUE`. -/
def WFLine (l : Line) : Prop :=
  l.getLast? = some '\n' ∧ '\n' ∉ l.dropLast ∧ '=' ∈ l.dropLast

instance (l : Line) : Decidable (WFLine l) :=
  inferInstanceAs
    (Decidable (l.getLast? = some '\n' ∧ '\n' ∉ l.dropLast ∧ '=' ∈ l.dropLast))

/-- Outcome of `get_token` as observed by `main`:
  * `refreshOk ats rts`: `client.refresh_access_token` succeeded and
    returned this token pair (which `get_token` writes to `.env`);
  * `refreshErr`: the provider rejected the refresh exchange, the
    `except` path re-raises `ValueError`;
  * `noRefreshToken`: no stored refresh token, `get_token` raises. -/
inductive TokenOutcome where
  | refreshOk (ats rts : Line)
  | refreshErr
  | noRefreshToken
deriving DecidableEq

/-- Outcome of `client.get_activities(limit=args.limit)`. -/
inductive FetchOutcome where
  | fetchOk (fetched : List ExtActivity)
  | fetchErr

/-- The two files the program writes. -/
structure SysFiles where
  envFile : List Line
  actsFile : StoreFile
deriving DecidableEq

/-- Embedding of the whole of `main` (strava-checker.py), as its effect on
the two files:
  * `get_token` failure (refresh rejected or no refresh token) raises
    `ValueError`, caught by the top-level handler — nothing is written;
  * on refresh success `get_token` has already rewritten `.env`;
  * a fetch failure logs and returns — the activities file is untouched;
  * otherwise the merge runs and writes only when `computeUpdate` says so. -/
def main_run (full_refresh : Bool) (tok : TokenOutcome) (fetch : FetchOutcome)
    (files : SysFiles) : SysFiles :=
  match tok with
  | .noRefreshToken => files
  | .refreshErr => files
  | .refreshOk ats rts =>
    let files1 : SysFiles := { files with envFile := update_env_file files.envFile ats rts }
    match fetch with
    | .fetchErr => files1
    | .fetchOk fetched =>
      match computeUpdate full_refresh files.actsFile fetched with
      | some written => { files1 with actsFile := .ok written }
      | none => files1

/-- The literal `timeout=60` passed to `auth_queue.get` in authorize.py. -/
def auth_wait_timeout_seconds : Nat := 60

/-- Outcome of `auth_queue.get(timeout=60)`: either the callback delivered
an authorization code within the window, or the wait timed out and `get`
raised `queue.Empty`. -/
inductive WaitOutcome where
  | gotCode (code : Line)
  | timeout
deriving DecidableEq

/-- Outcome of `client.exchange_code_for_token`. -/
inductive ExchangeOutcome where
  | exOk (ats rts : Line)
  | exErr
deriving DecidableEq

/-- How the authorization flow ended. -/
inductive AuthOutcome where
  | authOk
  | authTimeout
  | authExchangeErr
deriving DecidableEq

/-- Observable result of one run of authorize.py's `main`. -/
structure AuthResult where
  serverStopped : Bool
  envFile : List Line
  outcome : AuthOutcome
deriving DecidableEq

/-- Embedding of authorize.py's `main`: the callback server is started,
the flow blocks on the code queue with the 60-second timeout, exchanges the
code for tokens and persists them; the `finally` block runs
`server.shutdown()` / `server.server_close()` on every path, so
`serverStopped` is true in every branch.  A timeout (`queue.Empty`) and an
exchange failure both propagate to the outer handler before
`update_env_file` is reached, so the credentials file is untouched there. -/
def authorize_main (w : WaitOutcome) (ex : ExchangeOutcome)
    (env : List Line) : AuthResult :=
  match w with
  | .timeout => { serverStopped := true, envFile := env, outcome := .authTimeout }
  | .gotCode _ =>
    match ex with
    | .exErr => { serverStopped := true, envFile := env, outcome := .authExchangeErr }
    | .exOk ats rts =>
      { serverStopped := true, envFile := update_env_file env ats rts, outcome := .authOk }

/-- Id uniqueness inside a store, with respect to Python equality: no two
collected id values compare equal under `==`. -/
def pyNodup (ids : List JVal) : Prop :=
  ids.Pairwise (fun v w => pyEq v w = false)

/-- An external activity whose optional attributes are all absent, used as
concrete input by witnesses and counterexamples. -/
def plainActivity (i : Int) (sdl : String) : ExtActivity :=
  { id := i, name := "a", start_date_local := sdl, type' := "Run",
    distance := .absent, moving_time := .absent, elapsed_time := .absent,
    total_elevation_gain := .absent, average_speed := .absent, max_speed := .absent,
    average_heartrate := .absent, max_heartrate := .absent, average_cadence := .absent,
    average_watts := .absent, calories := .absent,
    kudos_count := .absent, achievement_count := .absent, athlete_count := .absent,
    gear_id := .absent, device_name := .absent, priv := .absent, commute := .absent }

/-- An external activity like `plainActivity`, except that its `distance`
attribute is present, truthy and not convertible by `float` (for instance a
string), so that `activity_to_dict` takes its degraded `except` path. -/
def badDistanceActivity (i : Int) (sdl : String) : ExtActivity :=
  { plainActivity i sdl with distance := .abad }

/-! Basic facts about the sort order. -/

theorem lexLe_nil_left (b : List Char) : lexLe [] b = true := rfl

theorem lexLe_nil_right (a : List Char) : lexLe a [] = true ↔ a = [] := by
  cases a <;> simp [lexLe]

theorem lexLe_total : ∀ a b : List Char, lexLe a b = true ∨ lexLe b a = true := by
  intro a
  induction a with
  | nil => intro b; left; rfl
  | cons c cs ih =>
    intro b
    cases b with
    | nil => right; rfl
    | cons d ds =>
      by_cases h1 : c < d
      · left; simp [lexLe, h1]
      · by_cases h2 : d < c
        · right; simp [lexLe, h2]
        · rcases ih ds with h | h
          · left; simp [lexLe, h1, h2, h]
          · right; simp [lexLe, h1, h2, h]

theorem lexLe_trans :
    ∀ a b c : List Char, lexLe a b = true → lexLe b c = true → lexLe a c = true := by
  intro a
  induction a with
  | nil => intro b c _ _; rfl
  | cons x xs ih =>
    intro b c hab hbc
    cases b with
    | nil => simp [lexLe] at hab
    | cons y ys =>
      cases c with
      | nil => simp [lexLe] at hbc
      | cons z zs =>
        rcases lt_trichotomy x y with hxy | hxy | hxy
        · rcases lt_trichotomy y z with hyz | hyz | hyz
          · simp [lexLe, lt_trans hxy hyz]
          · subst hyz; simp [lexLe, hxy]
          · simp [lexLe, hyz, lt_asymm hyz] at hbc
        · subst hxy
          rcases lt_trichotomy x z with hyz | hyz | hyz
          · simp [lexLe, hyz]
          · subst hyz
            simp only [lexLe, lt_irrefl, if_false] at hab hbc ⊢
            exact ih ys zs hab hbc
          · simp [lexLe, hyz, lt_asymm hyz] at hbc
        · simp [lexLe, hxy, lt_asymm hxy] at hab

instance : IsTotal JObj actLe := ⟨fun a b => lexLe_total (startKey a) (startKey b)⟩

instance : IsTrans JObj actLe :=
  ⟨fun a b c => lexLe_trans (startKey a) (startKey b) (startKey c)⟩

theorem sortActs_perm (l : List JObj) : List.Perm (sortActs l) l :=
  List.perm_insertionSort actLe l

theorem sortActs_sorted (l : List JObj) : (sortActs l).Sorted actLe :=
  List.sorted_insertionSort actLe l

/-! Basic facts about Python equality and membership. -/

theorem pyEq_refl_int (n : Int) : pyEq (.jint n) (.jint n) = true := by
  simp [pyEq]

theorem pyEq_int_iff (m n : Int) : pyEq (.jint m) (.jint n) = true ↔ m = n := by
  simp [pyEq]

theorem beq_comm_dec {α : Type} [DecidableEq α] [BEq α] [LawfulBEq α] (m n : α) :
    (m == n) = (n == m) := by
  by_cases h : m = n
  · subst h; rfl
  · rw [beq_eq_false_iff_ne.mpr h, beq_eq_false_iff_ne.mpr (fun e => h e.symm)]

theorem pyEq_symm (v w : JVal) : pyEq v w = pyEq w v := by
  cases v <;> cases w <;> simp only [pyEq] <;>
    first
      | rfl
      | exact beq_comm_dec _ _

theorem pyMem_iff (v : JVal) (s : List JVal) :
    pyMem v s = true ↔ ∃ w ∈ s, pyEq v w = true := by
  simp [pyMem]

theorem pyMem_eq_false_iff (v : JVal) (s : List JVal) :
    pyMem v s = false ↔ ∀ w ∈ s, pyEq v w = false := by
  simp [pyMem, List.any_eq_false]

theorem pyMem_of_perm {s t : List JVal} (h : List.Perm s t) (v : JVal) :
    pyMem v s = pyMem v t := by
  rcases hm : pyMem v t with _ | _
  · rw [pyMem_eq_false_iff] at hm ⊢
    exact fun w hw => hm w (h.mem_iff.mp hw)
  · rw [pyMem_iff] at hm ⊢
    obtain ⟨w, hw, hpe⟩ := hm
    exact ⟨w, h.mem_iff.mpr hw, hpe⟩

/-! Facts about the existing-id set. -/

theorem mem_existing_ids_of {acts : List JObj} {r : JObj} {v : JVal}
    (hr : r ∈ acts) (hv : r.get? "id" = some v) : v ∈ existing_ids_of acts :=
  List.mem_filterMap.mpr ⟨r, hr, hv⟩

theorem existing_ids_of_append (xs ys : List JObj) :
    existing_ids_of (xs ++ ys) = existing_ids_of xs ++ existing_ids_of ys :=
  List.filterMap_append xs ys _

theorem existing_ids_of_perm {l₁ l₂ : List JObj} (h : List.Perm l₁ l₂) :
    List.Perm (existing_ids_of l₁) (existing_ids_of l₂) :=
  h.filterMap _

/-! Facts about normalization and the new-activity filter. -/

theorem activity_to_dict_id (a : ExtActivity) :
    (activity_to_dict a).get? "id" = some (.jint a.id) := by
  unfold activity_to_dict
  split <;> rfl

theorem activity_to_dict_sdl (a : ExtActivity) :
    (activity_to_dict a).get? "start_date_local" = some (.jstr a.start_date_local) := by
  unfold activity_to_dict
  split <;> rfl

theorem new_activities_of_nil_ids (fetched : List ExtActivity) :
    new_activities_of [] fetched = fetched.map activity_to_dict := by
  apply List.filter_eq_self.mpr
  intro d hd
  obtain ⟨a, _, rfl⟩ := List.mem_map.mp hd
  simp [activity_to_dict_id, pyMem]

theorem mem_new_activities {exIds : List JVal} {a : ExtActivity}
    {fetched : List ExtActivity} (ha : a ∈ fetched)
    (hm : pyMem (.jint a.id) exIds = false) :
    activity_to_dict a ∈ new_activities_of exIds fetched := by
  refine List.mem_filter.mpr ⟨List.mem_map_of_mem _ ha, ?_⟩
  simp [activity_to_dict_id, hm]

theorem of_mem_new_activities {exIds : List JVal} {fetched : List ExtActivity}
    {d : JObj} (hd : d ∈ new_activities_of exIds fetched) :
    ∃ a ∈ fetched, d = activity_to_dict a ∧ pyMem (.jint a.id) exIds = false := by
  have ⟨hm, hp⟩ := List.mem_filter.mp hd
  obtain ⟨a, ha, rfl⟩ := List.mem_map.mp hm
  refine ⟨a, ha, rfl, ?_⟩
  revert hp
  simp [activity_to_dict_id]

/-! Shape of a successful merge. -/

theorem computeUpdate_some_eq {m : Bool} {store : StoreFile}
    {fetched : List ExtActivity} {l : List JObj}
    (h : computeUpdate m store fetched = some l) :
    l = sortActs ((if m = true then [] else load_existing_activities store) ++
      new_activities_of
        (existing_ids_of (if m = true then [] else load_existing_activities store))
        fetched) := by
  unfold computeUpdate at h
  cases m <;> simp only [Bool.false_eq_true, if_false, if_true] at h ⊢ <;>
    split at h <;> simp_all

theorem computeUpdate_sorted {m : Bool} {store : StoreFile}
    {fetched : List ExtActivity} {l : List JObj}
    (h : computeUpdate m store fetched = some l) : l.Sorted actLe := by
  rw [computeUpdate_some_eq h]
  exact sortActs_sorted _

/-! Lemmas towards idempotence (C1). -/

theorem computeUpdate_incremental_ids {store : StoreFile} {fetched : List ExtActivity}
    {l : List JObj} (h : computeUpdate false store fetched = some l) :
    ∀ a ∈ fetched, pyMem (.jint a.id) (existing_ids_of l) = true := by
  intro a ha
  have hl := computeUpdate_some_eq h
  simp only [Bool.false_eq_true, if_false] at hl
  set existing := load_existing_activities store with hex
  set news := new_activities_of (existing_ids_of existing) fetched with hnews
  have hperm : List.Perm (existing_ids_of l) (existing_ids_of (existing ++ news)) := by
    rw [hl]; exact existing_ids_of_perm (sortActs_perm _)
  rw [pyMem_of_perm hperm]
  cases hm : pyMem (.jint a.id) (existing_ids_of existing) with
  | false =>
    have hd : activity_to_dict a ∈ existing ++ news :=
      List.mem_append_right _ (mem_new_activities ha hm)
    have hv : (JVal.jint a.id) ∈ existing_ids_of (existing ++ news) :=
      mem_existing_ids_of hd (activity_to_dict_id a)
    exact (pyMem_iff _ _).mpr ⟨_, hv, pyEq_refl_int _⟩
  | true =>
    obtain ⟨w, hw, hpe⟩ := (pyMem_iff _ _).mp hm
    have hw' : w ∈ existing_ids_of (existing ++ news) := by
      rw [existing_ids_of_append]; exact List.mem_append_left _ hw
    exact (pyMem_iff _ _).mpr ⟨w, hw', hpe⟩

theorem second_run_no_write {store : StoreFile} {fetched : List ExtActivity}
    {l : List JObj} (h : computeUpdate false store fetched = some l) :
    computeUpdate false (.ok l) fetched = none := by
  have hids := computeUpdate_incremental_ids h
  have hnews : new_activities_of (existing_ids_of l) fetched = [] := by
    apply List.filter_eq_nil_iff.mpr
    intro d hd
    obtain ⟨a, ha, rfl⟩ := List.mem_map.mp hd
    simp [activity_to_dict_id, hids a ha]
  unfold computeUpdate
  simp [load_existing_activities, hnews]

/-- C1.  Incremental-sync idempotence: for every initial activities store and
every fetched activity set, running the incremental sync twice with the same
fetched set leaves the activities file after the second run identical to the
file after the first run; indeed the second run performs no write at all
(`computeUpdate` returns `none`), so in particular it introduces no
duplicate ids. -/
theorem incremental_sync_idempotent (store : StoreFile) (fetched : List ExtActivity) :
    run_sync false (run_sync false store fetched) fetched = run_sync false store fetched ∧
    computeUpdate false (run_sync false store fetched) fetched = none := by
  cases h : computeUpdate false store fetched with
  | none =>
    have hr : run_sync false store fetched = store := by simp [run_sync, h]
    rw [hr]
    exact ⟨hr, h⟩
  | some l =>
    have hr : run_sync false store fetched = .ok l := by simp [run_sync, h]
    have h2 := second_run_no_write h
    rw [hr]
    exact ⟨by simp [run_sync, h2], h2⟩

/-- C4.  Full-refresh replacement: a full-refresh run persists exactly the
normalized fetched records (their stable sort), the existing store has no
influence on the result (any two stores give the same outcome), and the
persisted list is a permutation of the normalized fetched records — in
particular none of the previously stored records are consulted or kept. -/
theorem full_refresh_replacement (store store' : StoreFile) (fetched : List ExtActivity) :
    computeUpdate true store fetched = some (sortActs (fetched.map activity_to_dict)) ∧
    computeUpdate true store fetched = computeUpdate true store' fetched ∧
    ∀ l, computeUpdate true store fetched = some l →
      List.Perm l (fetched.map activity_to_dict) := by
  have h1 : ∀ s : StoreFile,
      computeUpdate true s fetched = some (sortActs (fetched.map activity_to_dict)) := by
    intro s
    unfold computeUpdate
    simp [new_activities_of_nil_ids, existing_ids_of]
  refine ⟨h1 store, (h1 store).trans (h1 store').symm, ?_⟩
  intro l hl
  rw [h1 store] at hl
  injection hl with hl
  rw [← hl]
  exact sortActs_perm _

/-- C4 witness: a concrete full refresh from a store holding id 1 with a
fetch holding id 2 persists exactly the normalized fetched record. -/
theorem full_refresh_replacement_witness :
    computeUpdate true (.ok [[("id", JVal.jint 1)]]) [plainActivity 2 "b"]
      = some (sortActs ([plainActivity 2 "b"].map activity_to_dict)) ∧
    List.Perm [activity_to_dict (plainActivity 2 "b")]
      ([plainActivity 2 "b"].map activity_to_dict) := by
  have h := full_refresh_replacement (.ok [[("id", JVal.jint 1)]]) .missing
    [plainActivity 2 "b"]
  exact ⟨h.1, h.2.2 [activity_to_dict (plainActivity 2 "b")] (by decide)⟩

/-- C5.  Sort invariant: whenever a merge outcome writes the activities file
(incremental or full-refresh, any store and fetched set), the persisted
sequence is non-decreasing by `start_date_local` under lexicographic string
comparison (`actLe` compares the sort keys with `lexLe`). -/
theorem merge_output_sorted (m : Bool) (store : StoreFile) (fetched : List ExtActivity)
    (l : List JObj) (h : computeUpdate m store fetched = some l) :
    l.Sorted actLe :=
  computeUpdate_sorted h

/-- C5 witness: a concrete incremental run writes a concrete sorted file. -/
theorem merge_output_sorted_witness :
    List.Sorted actLe [activity_to_dict (plainActivity 1 "b")] :=
  merge_output_sorted false .missing [plainActivity 1 "b"]
    [activity_to_dict (plainActivity 1 "b")] (by decide)

/-- C6.  Corrupt-store recovery: a store file with invalid JSON loads as the
empty sequence, and one incremental run whose fetch returns exactly one
activity writes a file containing exactly that one normalized activity. -/
theorem corrupt_store_recovery (a : ExtActivity) :
    load_existing_activities .corrupt = [] ∧
    computeUpdate false .corrupt [a] = some [activity_to_dict a] := by
  refine ⟨rfl, ?_⟩
  unfold computeUpdate
  simp [load_existing_activities, existing_ids_of, new_activities_of, activity_to_dict_id,
    pyMem, sortActs, List.insertionSort, List.orderedInsert]

/-! Lemmas towards id uniqueness (C3). -/

theorem existing_ids_new_activities (exIds : List JVal) (fetched : List ExtActivity) :
    existing_ids_of (new_activities_of exIds fetched) =
      (fetched.filter (fun a => !pyMem (.jint a.id) exIds)).map (fun a => JVal.jint a.id) := by
  induction fetched with
  | nil => rfl
  | cons a rest ih =>
    cases hm : pyMem (.jint a.id) exIds with
    | true =>
      simpa [new_activities_of, existing_ids_of, List.filter_cons, activity_to_dict_id, hm]
        using ih
    | false =>
      simpa [new_activities_of, existing_ids_of, List.filter_cons, List.filterMap_cons,
        activity_to_dict_id, hm] using ih

theorem pyNodup_merge (existing : List JObj) (fetched : List ExtActivity)
    (hf : (fetched.map (fun a => a.id)).Nodup)
    (he : pyNodup (existing_ids_of existing)) :
    pyNodup (existing_ids_of
      (existing ++ new_activities_of (existing_ids_of existing) fetched)) := by
  unfold pyNodup
  rw [existing_ids_of_append, existing_ids_new_activities]
  apply List.pairwise_append.mpr
  refine ⟨he, ?_, ?_⟩
  · have hp : fetched.Pairwise (fun a b => a.id ≠ b.id) := List.pairwise_map.mp hf
    have hp2 := hp.filter (fun a => !pyMem (.jint a.id) (existing_ids_of existing))
    apply List.pairwise_map.mpr
    apply hp2.imp
    intro a b hab
    simp only [pyEq]
    exact beq_eq_false_iff_ne.mpr hab
  · intro v hv w hw
    obtain ⟨a, ha, rfl⟩ := List.mem_map.mp hw
    have hmem := List.mem_filter.mp ha
    have hm : pyMem (.jint a.id) (existing_ids_of existing) = false := by
      simpa using hmem.2
    have hvw := (pyMem_eq_false_iff _ _).mp hm v hv
    rw [pyEq_symm]
    exact hvw

/-- C3 amended.  Store id-uniqueness as an invariant: provided the fetched
activities carry pairwise-distinct ids and, in incremental mode, the loaded
store's collected id values are pairwise distinct under Python equality,
every sync run that writes the activities file persists a store whose id
values are again pairwise distinct.  (The unconditional claim is refuted by
`store_id_uniqueness_cex`: the filter never compares fetched activities
against each other.) -/
theorem store_id_uniqueness (m : Bool) (store : StoreFile) (fetched : List ExtActivity)
    (l : List JObj)
    (hf : (fetched.map (fun a => a.id)).Nodup)
    (hs : m = false → pyNodup (existing_ids_of (load_existing_activities store)))
    (h : computeUpdate m store fetched = some l) :
    pyNodup (existing_ids_of l) := by
  have hl := computeUpdate_some_eq h
  have hsym : ∀ {x y : JVal}, pyEq x y = false → pyEq y x = false := by
    intro x y hxy
    rw [pyEq_symm]
    exact hxy
  have hperm : List.Perm (existing_ids_of l)
      (existing_ids_of ((if m = true then [] else load_existing_activities store) ++
        new_activities_of
          (existing_ids_of (if m = true then [] else load_existing_activities store))
          fetched)) := by
    rw [hl]
    exact existing_ids_of_perm (sortActs_perm _)
  have he : pyNodup (existing_ids_of (if m = true then [] else load_existing_activities store)) := by
    cases m
    · simp only [Bool.false_eq_true, if_false]
      exact hs rfl
    · simp [pyNodup, existing_ids_of]
  exact (List.Perm.pairwise_iff hsym hperm).mpr (pyNodup_merge _ _ hf he)

/-- C3 counterexample.  The claim quantifies over every fetched activity set,
but a full-refresh fetch containing two activities with the same id persists
both: the written store's collected id values are `[7, 7]`, so `id` does not
uniquely identify a record in the persisted store. -/
theorem store_id_uniqueness_cex :
    existing_ids_of
        ((computeUpdate true .missing [plainActivity 7 "b", plainActivity 7 "b"]).getD [])
      = [.jint 7, .jint 7] ∧
    ¬ pyNodup [.jint 7, .jint 7] := by
  constructor
  · decide
  · intro hp
    simp [pyNodup, List.pairwise_cons, pyEq] at hp

/-- C3 witness: a concrete incremental run from an empty store with one
fetched activity satisfies the amended invariant's hypotheses and yields a
store with pairwise-distinct ids. -/
theorem store_id_uniqueness_witness :
    pyNodup (existing_ids_of [activity_to_dict (plainActivity 2 "b")]) :=
  store_id_uniqueness false .missing [plainActivity 2 "b"]
    [activity_to_dict (plainActivity 2 "b")]
    (by decide)
    (fun _ => by simp [pyNodup, load_existing_activities, existing_ids_of])
    (by decide)

/-- C10 amended.  Malformed stored records are tolerated: an incremental run
is total on them; a stored record lacking the `'id'` key contributes nothing
to the existing-id set (removing it does not change the set, so fetched
activities are not deduplicated against it — though a record that has an
`'id'` while lacking `'start_date_local'` still contributes its id, see
`malformed_record_dedup_cex`); every stored record, malformed or not, is
retained in the merged output when a write occurs; and for sorting a missing
`start_date_local` is treated as the empty string, placing such records
before every record with a nonempty sort key. -/
theorem malformed_records_tolerated (store : List JObj) (fetched : List ExtActivity)
    (l : List JObj) (h : computeUpdate false (.ok store) fetched = some l) :
    (∀ r ∈ store, r ∈ l) ∧
    (∀ (s₁ s₂ : List JObj) (r : JObj), r.get? "id" = none →
      existing_ids_of (s₁ ++ r :: s₂) = existing_ids_of (s₁ ++ s₂)) ∧
    (∀ r : JObj, r.get? "start_date_local" = none → startKey r = []) ∧
    (∀ i j : Fin l.length, (l.get i).get? "start_date_local" = none →
      startKey (l.get j) ≠ [] → (i : ℕ) < (j : ℕ)) := by
  have hl := computeUpdate_some_eq h
  simp only [Bool.false_eq_true, if_false, load_existing_activities] at hl
  refine ⟨?_, ?_, ?_, ?_⟩
  · intro r hr
    have hmem : r ∈ store ++ new_activities_of (existing_ids_of store) fetched :=
      List.mem_append_left _ hr
    rw [hl]
    exact ((sortActs_perm _).mem_iff).mpr hmem
  · intro s₁ s₂ r hr
    simp [existing_ids_of, List.filterMap_append, List.filterMap_cons, hr]
  · intro r hr
    simp [startKey, hr]
  · intro i j hi hj
    have hsorted := computeUpdate_sorted h
    have hki : startKey (l.get i) = [] := by unfold startKey; rw [hi]
    by_contra hij
    push_neg at hij
    rcases Nat.lt_or_ge (j : ℕ) (i : ℕ) with hlt | hge
    · have hrel : actLe (l.get j) (l.get i) := hsorted.rel_get_of_lt hlt
      unfold actLe at hrel
      rw [hki] at hrel
      exact hj ((lexLe_nil_right _).mp hrel)
    · have heq : i = j := Fin.ext (le_antisymm hge hij)
      rw [← heq, hki] at hj
      exact hj rfl

/-- C10 counterexample.  A stored record that has an `'id'` key but lacks
`'start_date_local'` does contribute its id to the existing-id set: with the
store `[{"id": 5}]` and one fetched activity with id 5, the fetched activity
is deduplicated against the malformed record and the run writes nothing —
the claim's "such a record contributes nothing to the existing-id set (so
fetched activities are never deduplicated against it)" is false here. -/
theorem malformed_record_dedup_cex :
    computeUpdate false (.ok [[("id", JVal.jint 5)]]) [plainActivity 5 "b"] = none := by
  decide

/-- C10 witness: a concrete incremental run over a store holding one record
with neither `'id'` nor `'start_date_local'`; the malformed record is
retained in the written output. -/
theorem malformed_records_tolerated_witness :
    [("name", JVal.jstr "x")] ∈
      [[("name", JVal.jstr "x")], activity_to_dict (plainActivity 3 "b")] :=
  (malformed_records_tolerated [[("name", JVal.jstr "x")]] [plainActivity 3 "b"]
      [[("name", JVal.jstr "x")], activity_to_dict (plainActivity 3 "b")]
      (by decide)).1
    _ (by decide)

/-- C7.  Error atomicity of the sync run: if the token refresh exchange is
rejected (or no refresh token is stored), the run terminates without writing
anything — both files are untouched; if the activities fetch fails, the run
returns before the merge, and the activities store is untouched for every
initial store content (a partial fetch is never partially merged). -/
theorem error_paths_leave_store_untouched (m : Bool) (tok : TokenOutcome)
    (fetch : FetchOutcome) (files : SysFiles) :
    (tok = .refreshErr → main_run m tok fetch files = files) ∧
    (tok = .noRefreshToken → main_run m tok fetch files = files) ∧
    (fetch = .fetchErr → (main_run m tok fetch files).actsFile = files.actsFile) := by
  refine ⟨?_, ?_, ?_⟩
  · intro h; subst h; rfl
  · intro h; subst h; rfl
  · intro h; subst h; cases tok <;> rfl

/-- C7 witness: concrete refresh-failure and fetch-failure runs leave the
concrete initial files unchanged. -/
theorem error_paths_leave_store_untouched_witness :
    main_run false .refreshErr (.fetchOk []) ⟨[], .missing⟩ = ⟨[], .missing⟩ ∧
    (main_run false (.refreshOk [] []) .fetchErr ⟨[], .missing⟩).actsFile = StoreFile.missing :=
  ⟨(error_paths_leave_store_untouched false .refreshErr (.fetchOk []) ⟨[], .missing⟩).1 rfl,
   (error_paths_leave_store_untouched false (.refreshOk [] []) .fetchErr ⟨[], .missing⟩).2.2 rfl⟩

/-- C9.  Authorization timeout: the wait window is the literal 60 seconds; if
no code arrives within it, the flow reports the timeout outcome and performs
no credentials-file write; the callback listener is stopped on every exit
path (success, timeout, or exchange failure — the `finally` block); and an
exchange failure also writes nothing. -/
theorem authorization_timeout_contract (w : WaitOutcome) (ex : ExchangeOutcome)
    (env : List Line) :
    (authorize_main w ex env).serverStopped = true ∧
    auth_wait_timeout_seconds = 60 ∧
    (w = .timeout →
      (authorize_main w ex env).outcome = .authTimeout ∧
      (authorize_main w ex env).envFile = env) ∧
    (ex = .exErr → (authorize_main w ex env).envFile = env) := by
  refine ⟨?_, rfl, ?_, ?_⟩
  · cases w with
    | timeout => rfl
    | gotCode c => cases ex <;> rfl
  · intro h; subst h; exact ⟨rfl, rfl⟩
  · intro h; subst h; cases w <;> rfl

/-- C9 witness: a concrete timed-out run stops the listener, reports the
timeout and leaves the concrete credentials file unwritten. -/
theorem authorization_timeout_contract_witness :
    (authorize_main .timeout .exErr []).serverStopped = true ∧
    (authorize_main .timeout .exErr []).outcome = .authTimeout ∧
    (authorize_main .timeout .exErr []).envFile = [] := by
  have h := authorization_timeout_contract .timeout .exErr []
  exact ⟨h.1, (h.2.2.1 rfl).1, (h.2.2.1 rfl).2⟩

/-! Lemmas towards missing-field defaulting (C8). -/

theorem reqNum_ne_abad {x : Attr Int} (h : x ≠ .abad) : ∃ v, reqNum x = some v := by
  cases x with
  | absent => exact ⟨0, rfl⟩
  | anull => exact ⟨0, rfl⟩
  | aval v => exact ⟨v, rfl⟩
  | abad => exact absurd rfl h

/-- C8 amended.  Missing-field defaulting holds for every external activity
whose required-core conversions succeed (so the record is not degraded to
the minimal core): a missing `average_watts` attribute yields the key
present with value null — and in general each optional field is defaulted
independently to null/0/false per its type class on absence or conversion
failure (`floatProp`/`intProp`/`strProp`/`boolProp` are exactly the
per-field defaulting of the source).  When a required-core conversion
raises, the source instead emits the minimal record without optional keys,
refuting the unconditional claim (see `missing_field_default_cex`). -/
theorem missing_field_defaulting (a : ExtActivity)
    (hd : a.distance ≠ .abad) (hm : a.moving_time ≠ .abad)
    (he : a.elapsed_time ≠ .abad) :
    (activity_to_dict a).get? "average_watts" = some (floatProp a.average_watts) ∧
    (a.average_watts = .absent → (activity_to_dict a).get? "average_watts" = some .jnull) ∧
    (a.average_watts = .abad → (activity_to_dict a).get? "average_watts" = some .jnull) ∧
    (activity_to_dict a).get? "kudos_count" = some (intProp a.kudos_count) ∧
    (a.kudos_count = .absent → (activity_to_dict a).get? "kudos_count" = some (.jint 0)) ∧
    (activity_to_dict a).get? "gear_id" = some (strProp a.gear_id) ∧
    (a.gear_id = .absent → (activity_to_dict a).get? "gear_id" = some .jnull) ∧
    (activity_to_dict a).get? "private" = some (boolProp a.priv) ∧
    (a.priv = .absent → (activity_to_dict a).get? "private" = some (.jbool false)) := by
  obtain ⟨d, hd'⟩ := reqNum_ne_abad hd
  obtain ⟨mt, hm'⟩ := reqNum_ne_abad hm
  obtain ⟨et, he'⟩ := reqNum_ne_abad he
  refine ⟨?_, ?_, ?_, ?_, ?_, ?_, ?_, ?_, ?_⟩ <;>
    (try intro hx) <;>
    simp [activity_to_dict, hd', hm', he', JObj.get?, floatProp, intProp, strProp,
      boolProp, *]

/-- C8 counterexample.  An external activity lacking `average_watts` whose
`distance` attribute is present, truthy and not convertible by `float`
triggers the degraded `except` path of `activity_to_dict`: the resulting
record has no `average_watts` key at all, refuting "present with value null
— not a missing key" as an unconditional statement. -/
theorem missing_field_default_cex :
    (badDistanceActivity 9 "b").average_watts = .absent ∧
    (activity_to_dict (badDistanceActivity 9 "b")).get? "average_watts" = none := by
  constructor <;> decide

/-- C8 witness: a concrete activity with all optional attributes absent and a
convertible core normalizes with `average_watts` present and null. -/
theorem missing_field_defaulting_witness :
    (activity_to_dict (plainActivity 4 "b")).get? "average_watts" = some .jnull :=
  (missing_field_defaulting (plainActivity 4 "b")
    (by decide) (by decide) (by decide)).2.1 (by decide)

/-! Character-list utilities for the credentials-file proofs (C2). -/

theorem takeWhile_ne_eq (pre rest : List Char) (h : ∀ c ∈ pre, (c != '=') = true) :
    (pre ++ '=' :: rest).takeWhile (fun c => c != '=') = pre := by
  induction pre with
  | nil => simp [List.takeWhile_cons]
  | cons c cs ih =>
    have hc := h c (List.mem_cons_self _ _)
    have ih' := ih (fun x hx => h x (List.mem_cons_of_mem _ hx))
    simp [List.takeWhile_cons, hc, ih']

theorem dropWhile_ne_eq (pre rest : List Char) (h : ∀ c ∈ pre, (c != '=') = true) :
    (pre ++ '=' :: rest).dropWhile (fun c => c != '=') = '=' :: rest := by
  induction pre with
  | nil => simp [List.dropWhile_cons]
  | cons c cs ih =>
    have hc := h c (List.mem_cons_self _ _)
    have ih' := ih (fun x hx => h x (List.mem_cons_of_mem _ hx))
    simp [List.dropWhile_cons, hc, ih']

theorem dropWhile_of_mem {l : List Char} (h : '=' ∈ l) :
    ∃ t, l.dropWhile (fun c => c != '=') = '=' :: t := by
  induction l with
  | nil => cases h
  | cons c cs ih =>
    by_cases hc : c = '='
    · subst hc; exact ⟨cs, by simp [List.dropWhile_cons]⟩
    · have hm : '=' ∈ cs := by
        rcases List.mem_cons.mp h with h1 | h1
        · exact absurd h1.symm hc
        · exact h1
      obtain ⟨t, ht⟩ := ih hm
      refine ⟨t, ?_⟩
      have hcb : (c != '=') = true := by simpa using hc
      simp [List.dropWhile_cons, hcb, ht]

theorem chompLine_newline {l : Line} (h : l.getLast? = some '\n') :
    chompLine l = l.dropLast := by
  simp [chompLine, h]

theorem chompLine_concat (l : Line) : chompLine (l ++ ['\n']) = l := by
  simp [chompLine, List.getLast?_concat, List.dropLast_concat]

theorem atEq : "ACCESS_TOKEN=".toList = "ACCESS_TOKEN".toList ++ ['='] := by decide

theorem rtEq : "REFRESH_TOKEN=".toList = "REFRESH_TOKEN".toList ++ ['='] := by decide

theorem atNoEq : ∀ c ∈ "ACCESS_TOKEN".toList, (c != '=') = true := by decide

theorem rtNoEq : ∀ c ∈ "REFRESH_TOKEN".toList, (c != '=') = true := by decide

theorem chomp_accessLine (tok : Line) :
    chompLine (accessLine tok) = "ACCESS_TOKEN".toList ++ '=' :: tok := by
  have h1 : accessLine tok = ("ACCESS_TOKEN=".toList ++ tok) ++ ['\n'] := by
    simp [accessLine]
  rw [h1, chompLine_concat, atEq, List.append_assoc, List.singleton_append]

theorem chomp_refreshLine (tok : Line) :
    chompLine (refreshLine tok) = "REFRESH_TOKEN".toList ++ '=' :: tok := by
  have h1 : refreshLine tok = ("REFRESH_TOKEN=".toList ++ tok) ++ ['\n'] := by
    simp [refreshLine]
  rw [h1, chompLine_concat, rtEq, List.append_assoc, List.singleton_append]

theorem accessLine_key (tok : Line) : lineKey (accessLine tok) = "ACCESS_TOKEN".toList := by
  rw [lineKey, chomp_accessLine]
  exact takeWhile_ne_eq _ _ atNoEq

theorem refreshLine_key (tok : Line) : lineKey (refreshLine tok) = "REFRESH_TOKEN".toList := by
  rw [lineKey, chomp_refreshLine]
  exact takeWhile_ne_eq _ _ rtNoEq

theorem accessLine_value (tok : Line) : lineValue (accessLine tok) = tok := by
  rw [lineValue, chomp_accessLine, dropWhile_ne_eq _ _ atNoEq]
  rfl

theorem refreshLine_value (tok : Line) : lineValue (refreshLine tok) = tok := by
  rw [lineValue, chomp_refreshLine, dropWhile_ne_eq _ _ rtNoEq]
  rfl

theorem key_of_prefixed {K : List Char} {l : Line} (hK : ∀ c ∈ K, (c != '=') = true)
    (hl : l.getLast? = some '\n') (hp : (K ++ ['=']).isPrefixOf l = true) :
    lineKey l = K := by
  obtain ⟨t, rfl⟩ := List.isPrefixOf_iff_prefix.mp hp
  have ht : t ≠ [] := by
    intro h0
    subst h0
    rw [List.append_nil, List.getLast?_concat] at hl
    exact absurd hl (by decide)
  rw [lineKey, chompLine_newline hl, List.dropLast_append_of_ne_nil _ ht,
    List.append_assoc, List.singleton_append]
  exact takeWhile_ne_eq _ _ hK

theorem prefixed_of_key {K : List Char} {l : Line} (hl : l.getLast? = some '\n')
    (he : '=' ∈ l.dropLast) (hk : lineKey l = K) :
    (K ++ ['=']).isPrefixOf l = true := by
  obtain ⟨t, ht⟩ := dropWhile_of_mem he
  have htw : l.dropLast.takeWhile (fun c => c != '=') = K := by
    rw [lineKey, chompLine_newline hl] at hk
    exact hk
  have hsplit : l.dropLast = K ++ '=' :: t := by
    conv_lhs => rw [← List.takeWhile_append_dropWhile (p := fun c => c != '=') (l := l.dropLast)]
    rw [htw, ht]
  have hlast : l.dropLast ++ ['\n'] = l :=
    List.dropLast_append_getLast? '\n' (Option.mem_def.mpr hl)
  refine List.isPrefixOf_iff_prefix.mpr ⟨t ++ ['\n'], ?_⟩
  rw [← hlast, hsplit, List.append_assoc, List.singleton_append, List.append_assoc,
    List.cons_append]

/-! Structural lemmas about `update_env_file` (C2). -/

theorem update_env_file_eq (env_lines : List Line) (ats rts : Line) :
    update_env_file env_lines ats rts =
      env_lines.map (replaceTokenLine ats rts) ++
      (if env_lines.any (fun l => "ACCESS_TOKEN=".toList.isPrefixOf l) then []
       else [accessLine ats]) ++
      (if env_lines.any (fun l => "REFRESH_TOKEN=".toList.isPrefixOf l) then []
       else [refreshLine rts]) := by
  unfold update_env_file
  cases hA : env_lines.any (fun l => "ACCESS_TOKEN=".toList.isPrefixOf l) <;>
    cases hR : env_lines.any (fun l => "REFRESH_TOKEN=".toList.isPrefixOf l) <;>
    simp [hA, hR]

theorem replaceTokenLine_access {ats rts x : Line}
    (hA : "ACCESS_TOKEN=".toList.isPrefixOf x = true) :
    replaceTokenLine ats rts x = accessLine ats := by
  unfold replaceTokenLine
  rw [if_pos hA]

theorem replaceTokenLine_refresh {ats rts x : Line}
    (hA : ¬ "ACCESS_TOKEN=".toList.isPrefixOf x = true)
    (hR : "REFRESH_TOKEN=".toList.isPrefixOf x = true) :
    replaceTokenLine ats rts x = refreshLine rts := by
  unfold replaceTokenLine
  rw [if_neg hA, if_pos hR]

theorem replaceTokenLine_other {ats rts x : Line}
    (hA : ¬ "ACCESS_TOKEN=".toList.isPrefixOf x = true)
    (hR : ¬ "REFRESH_TOKEN=".toList.isPrefixOf x = true) :
    replaceTokenLine ats rts x = x := by
  unfold replaceTokenLine
  rw [if_neg hA, if_neg hR]

theorem replace_key {ats rts : Line} {l : Line} (hl : l.getLast? = some '\n') :
    lineKey (replaceTokenLine ats rts l) = lineKey l := by
  by_cases hA : "ACCESS_TOKEN=".toList.isPrefixOf l = true
  · rw [replaceTokenLine_access hA, accessLine_key, key_of_prefixed atNoEq hl (atEq ▸ hA)]
  · by_cases hR : "REFRESH_TOKEN=".toList.isPrefixOf l = true
    · rw [replaceTokenLine_refresh hA hR, refreshLine_key,
        key_of_prefixed rtNoEq hl (rtEq ▸ hR)]
    · rw [replaceTokenLine_other hA hR]

theorem accessLine_wf (tok : Line) (h : '\n' ∉ tok) : WFLine (accessLine tok) := by
  have h1 : accessLine tok = ("ACCESS_TOKEN=".toList ++ tok) ++ ['\n'] := by
    simp [accessLine]
  refine ⟨?_, ?_, ?_⟩
  · rw [h1, List.getLast?_concat]
  · rw [h1, List.dropLast_concat]
    intro hmem
    rcases List.mem_append.mp hmem with hc | hc
    · exact absurd hc (by decide)
    · exact h hc
  · rw [h1, List.dropLast_concat]
    exact List.mem_append_left _ (by decide)

theorem refreshLine_wf (tok : Line) (h : '\n' ∉ tok) : WFLine (refreshLine tok) := by
  have h1 : refreshLine tok = ("REFRESH_TOKEN=".toList ++ tok) ++ ['\n'] := by
    simp [refreshLine]
  refine ⟨?_, ?_, ?_⟩
  · rw [h1, List.getLast?_concat]
  · rw [h1, List.dropLast_concat]
    intro hmem
    rcases List.mem_append.mp hmem with hc | hc
    · exact absurd hc (by decide)
    · exact h hc
  · rw [h1, List.dropLast_concat]
    exact List.mem_append_left _ (by decide)

theorem filter_map_replace {ats rts : Line} {env_lines : List Line}
    (hWF : ∀ l ∈ env_lines, WFLine l) :
    (env_lines.map (replaceTokenLine ats rts)).filter
        (fun l => !(lineKey l == "ACCESS_TOKEN".toList ||
                    lineKey l == "REFRESH_TOKEN".toList)) =
      env_lines.filter
        (fun l => !(lineKey l == "ACCESS_TOKEN".toList ||
                    lineKey l == "REFRESH_TOKEN".toList)) := by
  induction env_lines with
  | nil => rfl
  | cons x xs ih =>
    have hx := hWF x (List.mem_cons_self _ _)
    have ih' := ih (fun l hl => hWF l (List.mem_cons_of_mem _ hl))
    have hkey : lineKey (replaceTokenLine ats rts x) = lineKey x := replace_key hx.1
    cases hor : (lineKey x == "ACCESS_TOKEN".toList ||
        lineKey x == "REFRESH_TOKEN".toList) with
    | true =>
      rw [List.map_cons, List.filter_cons, List.filter_cons,
        if_neg (by rw [hkey, hor]; decide), if_neg (by rw [hor]; decide)]
      exact ih'
    | false =>
      have hne := Bool.or_eq_false_iff.mp hor
      have hxA : ¬ ("ACCESS_TOKEN=".toList.isPrefixOf x = true) := by
        intro hp
        have hk := key_of_prefixed atNoEq hx.1 (atEq ▸ hp)
        rw [hk] at hne
        simp at hne
      have hxR : ¬ ("REFRESH_TOKEN=".toList.isPrefixOf x = true) := by
        intro hp
        have hk := key_of_prefixed rtNoEq hx.1 (rtEq ▸ hp)
        rw [hk] at hne
        simp at hne
      rw [List.map_cons, replaceTokenLine_other hxA hxR, List.filter_cons, List.filter_cons,
        if_pos (by rw [hor]; decide), if_pos (by rw [hor]; decide), ih']

theorem out_key_access {ats rts : Line} {env_lines : List Line}
    (hWF : ∀ l ∈ env_lines, WFLine l) :
    ∀ l' ∈ update_env_file env_lines ats rts,
      lineKey l' = "ACCESS_TOKEN".toList → l' = accessLine ats := by
  intro l' hl' hk
  rw [update_env_file_eq] at hl'
  rcases List.mem_append.mp hl' with h1 | h2
  · rcases List.mem_append.mp h1 with hmap | hifA
    · obtain ⟨x, hx, rfl⟩ := List.mem_map.mp hmap
      have hwf := hWF x hx
      by_cases hA : "ACCESS_TOKEN=".toList.isPrefixOf x = true
      · exact replaceTokenLine_access hA
      · by_cases hR : "REFRESH_TOKEN=".toList.isPrefixOf x = true
        · rw [replaceTokenLine_refresh hA hR, refreshLine_key] at hk
          exact absurd hk (by decide)
        · rw [replaceTokenLine_other hA hR] at hk
          have hp := prefixed_of_key hwf.1 hwf.2.2 hk
          rw [← atEq] at hp
          exact absurd hp hA
    · cases hif : env_lines.any (fun l => "ACCESS_TOKEN=".toList.isPrefixOf l) with
      | true => rw [hif] at hifA; simp at hifA
      | false => rw [hif] at hifA; simpa using hifA
  · cases hif : env_lines.any (fun l => "REFRESH_TOKEN=".toList.isPrefixOf l) with
    | true => rw [hif] at h2; simp at h2
    | false =>
      rw [hif] at h2
      have h2' : l' = refreshLine rts := by simpa using h2
      rw [h2', refreshLine_key] at hk
      exact absurd hk (by decide)

theorem out_key_refresh {ats rts : Line} {env_lines : List Line}
    (hWF : ∀ l ∈ env_lines, WFLine l) :
    ∀ l' ∈ update_env_file env_lines ats rts,
      lineKey l' = "REFRESH_TOKEN".toList → l' = refreshLine rts := by
  intro l' hl' hk
  rw [update_env_file_eq] at hl'
  rcases List.mem_append.mp hl' with h1 | h2
  · rcases List.mem_append.mp h1 with hmap | hifA
    · obtain ⟨x, hx, rfl⟩ := List.mem_map.mp hmap
      have hwf := hWF x hx
      by_cases hA : "ACCESS_TOKEN=".toList.isPrefixOf x = true
      · rw [replaceTokenLine_access hA, accessLine_key] at hk
        exact absurd hk (by decide)
      · by_cases hR : "REFRESH_TOKEN=".toList.isPrefixOf x = true
        · exact replaceTokenLine_refresh hA hR
        · rw [replaceTokenLine_other hA hR] at hk
          have hp := prefixed_of_key hwf.1 hwf.2.2 hk
          rw [← rtEq] at hp
          exact absurd hp hR
    · cases hif : env_lines.any (fun l => "ACCESS_TOKEN=".toList.isPrefixOf l) with
      | true => rw [hif] at hifA; simp at hifA
      | false =>
        rw [hif] at hifA
        have h1' : l' = accessLine ats := by simpa using hifA
        rw [h1', accessLine_key] at hk
        exact absurd hk (by decide)
  · cases hif : env_lines.any (fun l => "REFRESH_TOKEN=".toList.isPrefixOf l) with
    | true => rw [hif] at h2; simp at h2
    | false => rw [hif] at h2; simpa using h2

theorem out_access_mem (ats rts : Line) (env_lines : List Line) :
    accessLine ats ∈ update_env_file env_lines ats rts := by
  rw [update_env_file_eq]
  cases hA : env_lines.any (fun l => "ACCESS_TOKEN=".toList.isPrefixOf l) with
  | false => simp [hA]
  | true =>
    obtain ⟨x, hx, hpx⟩ := List.any_eq_true.mp hA
    have hr : replaceTokenLine ats rts x = accessLine ats := replaceTokenLine_access hpx
    have hm : accessLine ats ∈ env_lines.map (replaceTokenLine ats rts) :=
      hr ▸ List.mem_map_of_mem _ hx
    exact List.mem_append_left _ (List.mem_append_left _ hm)

theorem out_refresh_mem (ats rts : Line) (env_lines : List Line) :
    refreshLine rts ∈ update_env_file env_lines ats rts := by
  rw [update_env_file_eq]
  cases hR : env_lines.any (fun l => "REFRESH_TOKEN=".toList.isPrefixOf l) with
  | false => simp [hR]
  | true =>
    obtain ⟨x, hx, hpx⟩ := List.any_eq_true.mp hR
    have hnA : ¬ ("ACCESS_TOKEN=".toList.isPrefixOf x = true) := by
      intro hpa
      obtain ⟨t, ht⟩ := List.isPrefixOf_iff_prefix.mp hpa
      obtain ⟨u, hu⟩ := List.isPrefixOf_iff_prefix.mp hpx
      have h1 : x.head? = some 'A' := by rw [← ht]; rfl
      have h2 : x.head? = some 'R' := by rw [← hu]; rfl
      rw [h1] at h2
      exact absurd h2 (by decide)
    have hr : replaceTokenLine ats rts x = refreshLine rts :=
      replaceTokenLine_refresh hnA hpx
    have hm : refreshLine rts ∈ env_lines.map (replaceTokenLine ats rts) :=
      hr ▸ List.mem_map_of_mem _ hx
    exact List.mem_append_left _ (List.mem_append_left _ hm)

theorem getLast?_of_all_eq {α : Type} {l : List α} {a : α} (hne : l ≠ [])
    (hall : ∀ x ∈ l, x = a) : l.getLast? = some a := by
  rw [List.getLast?_eq_getLast l hne]
  exact congrArg some (hall _ (List.getLast_mem hne))

theorem read_env_access {ats rts : Line} {env_lines : List Line}
    (hWF : ∀ l ∈ env_lines, WFLine l) :
    readEnvKey (update_env_file env_lines ats rts) "ACCESS_TOKEN".toList = some ats := by
  unfold readEnvKey
  have hmemf : accessLine ats ∈ (update_env_file env_lines ats rts).filter
      (fun l => lineKey l = "ACCESS_TOKEN".toList) := by
    refine List.mem_filter.mpr ⟨out_access_mem ats rts env_lines, ?_⟩
    simp [accessLine_key]
  have hne := List.ne_nil_of_mem hmemf
  have hall : ∀ y ∈ (update_env_file env_lines ats rts).filter
      (fun l => lineKey l = "ACCESS_TOKEN".toList), y = accessLine ats := by
    intro y hy
    have hy' := List.mem_filter.mp hy
    exact out_key_access hWF y hy'.1 (by simpa using hy'.2)
  rw [getLast?_of_all_eq hne hall]
  simp [accessLine_value]

theorem read_env_refresh {ats rts : Line} {env_lines : List Line}
    (hWF : ∀ l ∈ env_lines, WFLine l) :
    readEnvKey (update_env_file env_lines ats rts) "REFRESH_TOKEN".toList = some rts := by
  unfold readEnvKey
  have hmemf : refreshLine rts ∈ (update_env_file env_lines ats rts).filter
      (fun l => lineKey l = "REFRESH_TOKEN".toList) := by
    refine List.mem_filter.mpr ⟨out_refresh_mem ats rts env_lines, ?_⟩
    simp [refreshLine_key]
  have hne := List.ne_nil_of_mem hmemf
  have hall : ∀ y ∈ (update_env_file env_lines ats rts).filter
      (fun l => lineKey l = "REFRESH_TOKEN".toList), y = refreshLine rts := by
    intro y hy
    have hy' := List.mem_filter.mp hy
    exact out_key_refresh hWF y hy'.1 (by simpa using hy'.2)
  rw [getLast?_of_all_eq hne hall]
  simp [refreshLine_value]

theorem out_wf {ats rts : Line} {env_lines : List Line}
    (hWF : ∀ l ∈ env_lines, WFLine l) (hats : '\n' ∉ ats) (hrts : '\n' ∉ rts) :
    ∀ l' ∈ update_env_file env_lines ats rts, WFLine l' := by
  intro l' hl'
  rw [update_env_file_eq] at hl'
  rcases List.mem_append.mp hl' with h1 | h2
  · rcases List.mem_append.mp h1 with hmap | hifA
    · obtain ⟨x, hx, rfl⟩ := List.mem_map.mp hmap
      by_cases hA : "ACCESS_TOKEN=".toList.isPrefixOf x = true
      · rw [replaceTokenLine_access hA]; exact accessLine_wf ats hats
      · by_cases hR : "REFRESH_TOKEN=".toList.isPrefixOf x = true
        · rw [replaceTokenLine_refresh hA hR]; exact refreshLine_wf rts hrts
        · rw [replaceTokenLine_other hA hR]; exact hWF x hx
    · cases hif : env_lines.any (fun l => "ACCESS_TOKEN=".toList.isPrefixOf l) with
      | true => rw [hif] at hifA; simp at hifA
      | false =>
        rw [hif] at hifA
        have h1' : l' = accessLine ats := by simpa using hifA
        rw [h1']
        exact accessLine_wf ats hats
  · cases hif : env_lines.any (fun l => "REFRESH_TOKEN=".toList.isPrefixOf l) with
    | true => rw [hif] at h2; simp at h2
    | false =>
      rw [hif] at h2
      have h2' : l' = refreshLine rts := by simpa using h2
      rw [h2']
      exact refreshLine_wf rts hrts

theorem out_keys_nodup {ats rts : Line} {env_lines : List Line}
    (hWF : ∀ l ∈ env_lines, WFLine l)
    (hnd : (env_lines.map lineKey).Nodup) :
    ((update_env_file env_lines ats rts).map lineKey).Nodup := by
  rw [update_env_file_eq, List.map_append, List.map_append]
  have hmk : (env_lines.map (replaceTokenLine ats rts)).map lineKey = env_lines.map lineKey := by
    rw [List.map_map]
    exact List.map_congr_left (fun x hx => replace_key (hWF x hx).1)
  rw [hmk]
  have hAnot : env_lines.any (fun l => "ACCESS_TOKEN=".toList.isPrefixOf l) = false →
      "ACCESS_TOKEN".toList ∉ env_lines.map lineKey := by
    intro hA hmem
    obtain ⟨x, hx, hkx⟩ := List.mem_map.mp hmem
    have hp := prefixed_of_key (hWF x hx).1 (hWF x hx).2.2 hkx
    rw [← atEq] at hp
    exact (List.any_eq_false.mp hA x hx) hp
  have hRnot : env_lines.any (fun l => "REFRESH_TOKEN=".toList.isPrefixOf l) = false →
      "REFRESH_TOKEN".toList ∉ env_lines.map lineKey := by
    intro hR hmem
    obtain ⟨x, hx, hkx⟩ := List.mem_map.mp hmem
    have hp := prefixed_of_key (hWF x hx).1 (hWF x hx).2.2 hkx
    rw [← rtEq] at hp
    exact (List.any_eq_false.mp hR x hx) hp
  have hmapA : List.map lineKey [accessLine ats] = ["ACCESS_TOKEN".toList] := by
    simp [accessLine_key]
  have hmapR : List.map lineKey [refreshLine rts] = ["REFRESH_TOKEN".toList] := by
    simp [refreshLine_key]
  cases hA : env_lines.any (fun l => "ACCESS_TOKEN=".toList.isPrefixOf l) with
  | true =>
    cases hR : env_lines.any (fun l => "REFRESH_TOKEN=".toList.isPrefixOf l) with
    | true =>
      rw [if_pos rfl, if_pos rfl, List.map_nil, List.append_nil, List.append_nil]
      exact hnd
    | false =>
      rw [if_pos rfl, if_neg (by simp), List.map_nil, List.append_nil, hmapR]
      refine List.Nodup.append hnd (by simp) ?_
      intro a haK haR
      rw [List.mem_singleton] at haR
      subst haR
      exact hRnot hR haK
  | false =>
    cases hR : env_lines.any (fun l => "REFRESH_TOKEN=".toList.isPrefixOf l) with
    | true =>
      rw [if_neg (by simp), if_pos rfl, List.map_nil, List.append_nil, hmapA]
      refine List.Nodup.append hnd (by simp) ?_
      intro a haK haA
      rw [List.mem_singleton] at haA
      subst haA
      exact hAnot hA haK
    | false =>
      rw [if_neg (by simp), if_neg (by simp), hmapA, hmapR]
      refine List.Nodup.append (List.Nodup.append hnd (by simp) ?_) (by simp) ?_
      · intro a haK haA
        rw [List.mem_singleton] at haA
        subst haA
        exact hAnot hA haK
      · intro a haKA haR
        rw [List.mem_singleton] at haR
        subst haR
        rcases List.mem_append.mp haKA with haK | haA
        · exact hRnot hR haK
        · rw [List.mem_singleton] at haA
          exact absurd haA (by decide)

/-- C2 amended.  Credentials-file round-trip for well-formed input: if every
line of the credentials file is a newline-terminated single-line `KEY=VALUE`
pair, the keys are pairwise distinct, and the new token values contain no
newline, then after `update_env_file` every line whose key is neither
`ACCESS_TOKEN` nor `REFRESH_TOKEN` is preserved verbatim (and in order),
reading back `ACCESS_TOKEN` and `REFRESH_TOKEN` yields exactly the new
values, every line of the file is again a parseable newline-terminated
`KEY=VALUE` pair, and no key appears twice.  (Without the distinct-keys
hypothesis the claim fails: see `update_env_duplicate_keys_cex`.) -/
theorem update_env_round_trip (env_lines : List Line) (ats rts : Line)
    (hWF : ∀ l ∈ env_lines, WFLine l)
    (hnd : (env_lines.map lineKey).Nodup)
    (hats : '\n' ∉ ats) (hrts : '\n' ∉ rts) :
    ((update_env_file env_lines ats rts).filter
        (fun l => !(lineKey l == "ACCESS_TOKEN".toList ||
                    lineKey l == "REFRESH_TOKEN".toList)) =
      env_lines.filter
        (fun l => !(lineKey l == "ACCESS_TOKEN".toList ||
                    lineKey l == "REFRESH_TOKEN".toList))) ∧
    readEnvKey (update_env_file env_lines ats rts) "ACCESS_TOKEN".toList = some ats ∧
    readEnvKey (update_env_file env_lines ats rts) "REFRESH_TOKEN".toList = some rts ∧
    (∀ l ∈ update_env_file env_lines ats rts, WFLine l) ∧
    ((update_env_file env_lines ats rts).map lineKey).Nodup := by
  refine ⟨?_, read_env_access hWF, read_env_refresh hWF, out_wf hWF hats hrts,
    out_keys_nodup hWF hnd⟩
  rw [update_env_file_eq, List.filter_append, List.filter_append, filter_map_replace hWF]
  have hfA : (if env_lines.any (fun l => "ACCESS_TOKEN=".toList.isPrefixOf l) then []
      else [accessLine ats]).filter
        (fun l => !(lineKey l == "ACCESS_TOKEN".toList ||
                    lineKey l == "REFRESH_TOKEN".toList)) = [] := by
    cases hA : env_lines.any (fun l => "ACCESS_TOKEN=".toList.isPrefixOf l) <;>
      simp [accessLine_key]
  have hfR : (if env_lines.any (fun l => "REFRESH_TOKEN=".toList.isPrefixOf l) then []
      else [refreshLine rts]).filter
        (fun l => !(lineKey l == "ACCESS_TOKEN".toList ||
                    lineKey l == "REFRESH_TOKEN".toList)) = [] := by
    cases hR : env_lines.any (fun l => "REFRESH_TOKEN=".toList.isPrefixOf l) <;>
      simp [refreshLine_key]
  rw [hfA, hfR, List.append_nil, List.append_nil]

/-- C2 counterexample.  The claim quantifies over every credentials-file
content, but a file whose two lines both carry the key `ACCESS_TOKEN` keeps
both lines (both are rewritten in place), so a key appears twice after the
update. -/
theorem update_env_duplicate_keys_cex :
    ¬ ((update_env_file ["ACCESS_TOKEN=old1\n".toList, "ACCESS_TOKEN=old2\n".toList]
        "new".toList "r".toList).map lineKey).Nodup := by
  decide

/-- C2 witness: a concrete well-formed one-line credentials file satisfies
the amended round-trip's hypotheses; reading back yields the new access
token and the keys of the rewritten file are pairwise distinct. -/
theorem update_env_round_trip_witness :
    readEnvKey (update_env_file ["CLIENT_ID=abc\n".toList] "newA".toList "newR".toList)
        "ACCESS_TOKEN".toList = some "newA".toList ∧
    ((update_env_file ["CLIENT_ID=abc\n".toList] "newA".toList "newR".toList).map
        lineKey).Nodup :=
  ⟨(update_env_round_trip ["CLIENT_ID=abc\n".toList] "newA".toList "newR".toList
      (by decide) (by decide) (by decide) (by decide)).2.1,
   (update_env_round_trip ["CLIENT_ID=abc\n".toList] "newA".toList "newR".toList
      (by decide) (by decide) (by decide) (by decide)).2.2.2.2⟩

end StravaChecker
